import Mathlib

/-!
# Verification of the ml-go tensor engine and layer contract

Shallow embedding of the core of the `ml-go` repository: the `Tensor`
container and its arithmetic, the matrix multiply/transpose operators, the
Dense/Convolution/Flatten layers, network composition, the `nn` package's
softmax activation derivative, and the AutoEncoder's sparse-noise path.

Element values (`float32` in Go) are modelled as exact rationals; all the
properties proved here are about the exact data flow of the algorithms, and
every concrete counterexample uses small integers that are exactly
representable in `float32`. Dimensions (`int` in Go, always non-negative
here) are modelled as naturals. A Go method returning an `error` is
modelled as an `Option`-valued function (`none` = error); a call whose
error result the source discards is modelled by the corresponding
`...Ignore` variant. `log.Panicf` in `Tensor.Get` is modelled by the
checked accessor `Tensor.getChecked` returning `none`.

A `Tensor` is a dimension triple plus a total value function; positions
outside the declared bounds carry irrelevant values that no statement
proved here depends on.
-/

set_option maxRecDepth 4000

namespace MLGo

/-- Element type of the Go `float32` tensors, modelled as exact rationals. -/
abbrev Val := ℚ

/-- Embedding of `ml.Tensor`: `Frames`, `Rows`, `Cols` plus the stored grid. -/
structure Tensor where
  frames : ℕ
  rows : ℕ
  cols : ℕ
  values : ℕ → ℕ → ℕ → Val

/-- In-bounds predicate used by every bounds check in the source. -/
def Tensor.inBounds (t : Tensor) (f r c : ℕ) : Prop :=
  f < t.frames ∧ r < t.rows ∧ c < t.cols

instance (t : Tensor) (f r c : ℕ) : Decidable (t.inBounds f r c) := by
  unfold Tensor.inBounds; infer_instance

/-- Embedding of `Tensor.Get` with its fatal bounds check made visible: `none` models the
`log.Panicf` abort. -/
def Tensor.getChecked (t : Tensor) (f r c : ℕ) : Option Val :=
  if t.inBounds f r c then some (t.values f r c) else none

/-- Pointwise functional update at one cell (the write done by a successful
`Tensor.Set`). -/
def Tensor.updateAt (t : Tensor) (f r c : ℕ) (v : Val) : Tensor :=
  { t with values := fun g s d => if g = f ∧ s = r ∧ d = c then v else t.values g s d }

/-- Embedding of `Tensor.Set` with the returned error discarded, as the layer code does:
an out-of-bounds write is a no-op. -/
def Tensor.setIgnore (t : Tensor) (f r c : ℕ) (v : Val) : Tensor :=
  if t.inBounds f r c then t.updateAt f r c v else t

/-- Embeds `NewEmptyTensor3D`: an all-zero tensor of the given dimensions. -/
def newEmptyTensor3D (frames rows cols : ℕ) : Tensor :=
  ⟨frames, rows, cols, fun _ _ _ => 0⟩

/-- Embeds `NewEmptyTensor2D`. -/
def newEmptyTensor2D (rows cols : ℕ) : Tensor := newEmptyTensor3D 1 rows cols

/-- Embeds `NewEmptyTensor1D`. -/
def newEmptyTensor1D (cols : ℕ) : Tensor := newEmptyTensor3D 1 1 cols

/-- Embeds `NewValueTensor1D`, including its empty-slice special case. -/
def newValueTensor1D (vs : List Val) : Tensor :=
  if vs = [] then ⟨1, 1, 1, fun _ _ _ => 0⟩
  else ⟨1, 1, vs.length, fun _ _ c => vs.getD c 0⟩

/-- Embeds `NewValueTensor2D`, including its empty-slice special case; `Cols` is the
length of the first row, exactly as in the source. -/
def newValueTensor2D (vs : List (List Val)) : Tensor :=
  if vs = [] then ⟨1, 1, 1, fun _ _ _ => 0⟩
  else ⟨1, vs.length, (vs.headD []).length, fun _ r c => (vs.getD r []).getD c 0⟩

/-- Embeds `NewValueTensor3D`, including its empty-slice special case. -/
def newValueTensor3D (vs : List (List (List Val))) : Tensor :=
  if vs = [] then ⟨1, 1, 1, fun _ _ _ => 0⟩
  else
    ⟨vs.length, (vs.headD []).length, ((vs.headD []).headD []).length,
      fun f r c => ((vs.getD f []).getD r []).getD c 0⟩

/-- Embeds `Tensor.ApplyFunction`: rewrite every in-bounds cell through `fn`. -/
def Tensor.applyFunction (t : Tensor) (fn : Val → ℕ → ℕ → ℕ → Val) : Tensor :=
  { t with values := fun f r c =>
      if t.inBounds f r c then fn (t.values f r c) f r c else t.values f r c }

/-- Embeds `Tensor.Scale` (scalar multiply in place). -/
def Tensor.scale (t : Tensor) (v : Val) : Tensor :=
  t.applyFunction fun cur _ _ _ => cur * v

/-- Dimension-equality test shared by every elementwise binary operation. -/
def Tensor.sameDims (t o : Tensor) : Prop :=
  t.frames = o.frames ∧ t.rows = o.rows ∧ t.cols = o.cols

instance (t o : Tensor) : Decidable (t.sameDims o) := by
  unfold Tensor.sameDims; infer_instance

/-- The write phase of `Tensor.AddTensor` (runs after the dimension check). -/
def Tensor.addT (t o : Tensor) : Tensor :=
  t.applyFunction fun cur f r c => cur + o.values f r c

/-- Embeds `Tensor.AddTensor`. -/
def Tensor.addTensor (t o : Tensor) : Option Tensor :=
  if t.sameDims o then some (t.addT o) else none

/-- The write phase of `Tensor.SubtractTensor`. -/
def Tensor.subT (t o : Tensor) : Tensor :=
  t.applyFunction fun cur f r c => cur - o.values f r c

/-- Embeds `Tensor.SubtractTensor`. -/
def Tensor.subtractTensor (t o : Tensor) : Option Tensor :=
  if t.sameDims o then some (t.subT o) else none

/-- The write phase of `Tensor.ScaleTensor` (elementwise multiply). -/
def Tensor.mulT (t o : Tensor) : Tensor :=
  t.applyFunction fun cur f r c => cur * o.values f r c

/-- Embeds `Tensor.ScaleTensor`. -/
def Tensor.scaleTensor (t o : Tensor) : Option Tensor :=
  if t.sameDims o then some (t.mulT o) else none

/-- The write phase of `Tensor.SetTensor`. -/
def Tensor.copyFromT (t o : Tensor) : Tensor :=
  t.applyFunction fun _ f r c => o.values f r c

/-- Embeds `Tensor.SetTensor` (copy every cell of `o` into `t` after a strict
dimension check). -/
def Tensor.setTensor (t o : Tensor) : Option Tensor :=
  if t.sameDims o then some (t.copyFromT o) else none

/-- Embeds `Tensor.SetTensor` with the returned error discarded, as the layer
caches do: on dimension mismatch the cache keeps its old contents. -/
def Tensor.setTensorIgnore (t o : Tensor) : Tensor :=
  (t.setTensor o).getD t

/-- Inner product of row `r` of frame `f` of `a` with column `c` of frame
`f` of `b` (the innermost loop of `MatrixMultiply`). -/
def dotProd (a b : Tensor) (f r c : ℕ) : Val :=
  ((List.range a.cols).map fun i => a.values f r i * b.values f i c).sum

/-- The write phase of `MatrixMultiply`: fill every cell of the result
(whose dimensions are `a.frames × a.rows × b.cols`) with the product. -/
def mmInto (a b dest : Tensor) : Tensor :=
  { dest with values := fun f r c =>
      if f < a.frames ∧ r < a.rows ∧ c < b.cols then dotProd a b f r c
      else dest.values f r c }

/-- Embeds `MatrixMultiply` with its frame-count, inner-dimension and
destination-shape checks. -/
def matrixMultiply (a b : Tensor) (dest : Option Tensor) : Option Tensor :=
  if a.frames ≠ b.frames then none
  else if a.cols ≠ b.rows then none
  else
    match dest with
    | some d =>
        if d.frames ≠ a.frames ∨ d.rows ≠ a.rows ∨ d.cols ≠ b.cols then none
        else some (mmInto a b d)
    | none => some (mmInto a b (newEmptyTensor3D a.frames a.rows b.cols))

/-- The write phase of `MatrixTranspose`: every in-bounds cell of the
destination becomes `source[f][c][r]`. -/
def transposeInto (a dest : Tensor) : Tensor :=
  dest.applyFunction fun _ f r c => a.values f c r

/-- Embeds `MatrixTranspose` with a freshly allocated destination (the `nil` dest
path, which never fails). -/
def transposeT (a : Tensor) : Tensor :=
  transposeInto a (newEmptyTensor3D a.frames a.cols a.rows)

/-- Embeds `MatrixTranspose` with its destination-shape check. -/
def matrixTranspose (a : Tensor) (dest : Option Tensor) : Option Tensor :=
  match dest with
  | some d =>
      if d.frames ≠ a.frames ∨ d.rows ≠ a.cols ∨ d.cols ≠ a.rows then none
      else some (transposeInto a d)
  | none => some (transposeT a)

/-- The triple nested loop order of `Tensor.Equals`, `ApplyFunction` and
`FlattenLayer.FeedForward`: frame-major, then row, then column. -/
def tripleIndices (F R C : ℕ) : List (ℕ × ℕ × ℕ) :=
  (List.range F).flatMap fun f =>
    (List.range R).flatMap fun r =>
      (List.range C).map fun c => (f, r, c)

/-- One frame block of the loop-order index list. -/
def frameBlock (R C f : ℕ) : List (ℕ × ℕ × ℕ) :=
  (List.range R).flatMap fun r => (List.range C).map fun c => (f, r, c)

/-- The comparison loop of `Tensor.Equals`, with both `Get` calls
bounds-checked: `none` models the fatal out-of-bounds panic, `some false`
an early mismatch return, `some true` completion. -/
def equalsAux (t o : Tensor) : List (ℕ × ℕ × ℕ) → Option Bool
  | [] => some true
  | (f, r, c) :: rest =>
    match t.getChecked f r c, o.getChecked f r c with
    | some a, some b => if a ≠ b then some false else equalsAux t o rest
    | _, _ => none

/-- Embeds `Tensor.Equals`: rows/cols are compared up front, frame counts never;
the loop runs over the receiver's own `Frames`. -/
def equalsRun (t o : Tensor) : Option Bool :=
  if t.rows ≠ o.rows ∨ t.cols ≠ o.cols then some false
  else equalsAux t o (tripleIndices t.frames t.rows t.cols)

/-- The `ml` package's `LayerShape` value triple. Its declaration file is
not in the extract, but its fields and their order are fixed by every use
site: positional literals `LayerShape{rows, cols, frames}` and field
accesses `.Rows`, `.Cols`, `.Frames` in `NeuralNetwork.Add`. -/
structure LayerShape where
  Rows : ℕ
  Cols : ℕ
  Frames : ℕ
deriving DecidableEq

/-- An activation is a pair of tensor transforms, as in the source struct;
the concrete members mutate their argument through `ApplyFunction`. -/
structure ActivationFunction where
  func : Tensor → Tensor
  deriv : Tensor → Tensor

/-- Embeds `ActivationRELU.Function`. -/
def reluFunc (t : Tensor) : Tensor :=
  t.applyFunction fun cur _ _ _ => if 0 < cur then cur else 0

/-- Embeds `ActivationRELU.Derivative`. -/
def reluDeriv (t : Tensor) : Tensor :=
  t.applyFunction fun cur _ _ _ => if 0 < cur then 1 else 0

/-- Embeds `ActivationRELU` (the only activation needed by the claims on the
layer code; its two members are exact over rationals). -/
def ActivationRELU : ActivationFunction := ⟨reluFunc, reluDeriv⟩

/-- Embedding of `ml.DenseLayer` (weights are public state mutated by
`BackPropagate`; `inputs`/`outputs` are the forward-pass caches). -/
structure DenseLayer where
  inputShape : LayerShape
  outputShape : LayerShape
  inputs : Tensor
  outputs : Tensor
  Weights : Tensor
  Bias : Tensor
  PrevUpdate : Tensor
  Activation : ActivationFunction

/-- Embeds `DenseLayer.FeedForward`. The `SetTensor` into the input cache has its
error discarded in the source, and the multiply reads the cache (not the
argument), so a mismatched input silently reuses the stale cache. -/
def DenseLayer.feedForward (l : DenseLayer) (inputs : Tensor) :
    Option (DenseLayer × Tensor) :=
  if inputs.frames ≠ 1 then none
  else
    let newInputs := l.inputs.setTensorIgnore inputs
    match matrixMultiply newInputs l.Weights (some l.outputs) with
    | none => none
    | some out1 =>
      match out1.addTensor l.Bias with
      | none => none
      | some out2 =>
        let out3 := l.Activation.func out2
        some ({ l with inputs := newInputs, outputs := out3 }, out3)

/-- Embeds `DenseLayer.BackPropagate`, step for step: gradient from the activation
derivative of the cached outputs times the incoming deltas times the
learning rate; weight update, momentum re-application, momentum-buffer
store, bias update; and finally the next deltas computed from the weights
as they stand after the update. -/
def DenseLayer.backPropagate (l : DenseLayer) (outputs : Tensor)
    (learningRate momentum : Val) : Option (DenseLayer × Tensor) :=
  if outputs.frames ≠ 1 then none
  else
    let gradient0 := l.Activation.deriv l.outputs
    match gradient0.scaleTensor outputs with
    | none => none
    | some gradient1 =>
      let gradient := gradient1.scale learningRate
      let transposedInputs := transposeT l.inputs
      match matrixMultiply transposedInputs gradient none with
      | none => none
      | some weightChange =>
        match l.Weights.addTensor weightChange with
        | none => none
        | some weights1 =>
          let prev1 := l.PrevUpdate.scale momentum
          match weights1.addTensor prev1 with
          | none => none
          | some weights2 =>
            match prev1.setTensor weightChange with
            | none => none
            | some prev2 =>
              match l.Bias.addTensor gradient with
              | none => none
              | some bias1 =>
                let transposedWeights := transposeT weights2
                match matrixMultiply outputs transposedWeights none with
                | none => none
                | some nextDeltas =>
                  some ({ l with
                            Weights := weights2
                            PrevUpdate := prev2
                            Bias := bias1 }, nextDeltas)

/-- Embedding of `ml.ConvolutionLayer`. -/
structure ConvolutionLayer where
  inputShape : LayerShape
  outputShape : LayerShape
  inputs : Tensor
  outputs : Tensor
  Filters : List Tensor
  Activation : ActivationFunction

/-- Embeds `NewConvolutionLayer`: the output buffer holds
`inputFrames * len(filters)` frames. -/
def newConvolutionLayer (inputRows inputCols inputFrames : ℕ)
    (filters : List Tensor) (activation : ActivationFunction) : ConvolutionLayer :=
  { inputShape := ⟨inputRows, inputCols, inputFrames⟩
    outputShape := ⟨inputRows, inputCols, inputFrames * filters.length⟩
    inputs := newEmptyTensor3D inputFrames inputRows inputCols
    outputs := newEmptyTensor3D (inputFrames * filters.length) inputRows inputCols
    Filters := filters
    Activation := activation }

/-- The private `convolution` helper: zero-padded cross-correlation centred
on the filter midpoint, with Go truncating division on the filter radius
and boundary positions skipped. -/
def convolutionAt (matrix : Tensor) (frame row col : ℕ) (filter : Tensor) : Val :=
  ((List.range (filter.rows / 2 * 2 + 1)).map fun (i : ℕ) =>
    let convRow : ℤ := (row : ℤ) + ((i : ℤ) - ((filter.rows / 2 : ℕ) : ℤ))
    if convRow < 0 ∨ (matrix.rows : ℤ) ≤ convRow then 0
    else
      ((List.range (filter.cols / 2 * 2 + 1)).map fun (j : ℕ) =>
        let convCol : ℤ := (col : ℤ) + ((j : ℤ) - ((filter.cols / 2 : ℕ) : ℤ))
        if convCol < 0 ∨ (matrix.cols : ℤ) ≤ convCol then 0
        else matrix.values frame convRow.toNat convCol.toNat *
          filter.values 0 i j).sum).sum

/-- One filter pass of `ConvolutionLayer.FeedForward`: for every position of
the *input* (frame, row, col) the correlation value is written — through a
bounds-checked `Set` whose error is discarded — at that same frame index of
the output buffer. -/
def convWriteFilter (out inputs filter : Tensor) : Tensor :=
  { out with values := fun f r c =>
      if (f < inputs.frames ∧ r < inputs.rows ∧ c < inputs.cols) ∧ out.inBounds f r c
      then convolutionAt inputs f r c filter
      else out.values f r c }

/-- Embeds `ConvolutionLayer.FeedForward`: cache the input (error discarded), run
every filter's write pass over the shared output buffer in filter order,
then apply the activation once over the whole buffer. -/
def ConvolutionLayer.feedForward (l : ConvolutionLayer) (inputs : Tensor) :
    ConvolutionLayer × Tensor :=
  let newInputs := l.inputs.setTensorIgnore inputs
  let written := l.Filters.foldl (fun acc filter => convWriteFilter acc inputs filter) l.outputs
  let activated := l.Activation.func written
  ({ l with inputs := newInputs, outputs := activated }, activated)

/-- Embedding of `ml.FlattenLayer`. -/
structure FlattenLayer where
  inputShape : LayerShape
  outputShape : LayerShape
  inputs : Tensor
  outputs : Tensor

/-- Embeds `NewFlattenLayer`. -/
def newFlattenLayer (inputRows inputCols inputFrames : ℕ) : FlattenLayer :=
  { inputShape := ⟨inputRows, inputCols, inputFrames⟩
    outputShape := ⟨1, inputRows * inputCols * inputFrames, 1⟩
    inputs := newEmptyTensor3D inputFrames inputRows inputCols
    outputs := newEmptyTensor1D (inputRows * inputCols * inputFrames) }

/-- The write loop of `FlattenLayer.FeedForward`: successive input cells go
to successive flat indices of row 0, each through a bounds-checked `Set`
whose error is discarded. -/
def flatLoop (inputs : Tensor) : Tensor → ℕ → List (ℕ × ℕ × ℕ) → Tensor
  | out, _, [] => out
  | out, idx, (f, r, c) :: rest =>
    flatLoop inputs (out.setIgnore 0 0 idx (inputs.values f r c)) (idx + 1) rest

/-- Embeds `FlattenLayer.FeedForward`. -/
def FlattenLayer.feedForward (l : FlattenLayer) (inputs : Tensor) :
    FlattenLayer × Tensor :=
  let newInputs := l.inputs.setTensorIgnore inputs
  let newOutputs :=
    flatLoop inputs l.outputs 0 (tripleIndices inputs.frames inputs.rows inputs.cols)
  ({ l with inputs := newInputs, outputs := newOutputs }, newOutputs)

/-- Embeds `FlattenLayer.BackPropagate`: returns the cached pre-flatten input
unchanged. -/
def FlattenLayer.backPropagate (l : FlattenLayer) (_outputs : Tensor)
    (_learningRate _momentum : Val) : Option (FlattenLayer × Tensor) :=
  some (l, l.inputs)

/-- What `NeuralNetwork.Add` reads from a layer: its two shapes. Layers
compare equal exactly when both shapes do, which is all the layer-list
statements below need. -/
structure LayerI where
  inputShape : LayerShape
  outputShape : LayerShape
deriving DecidableEq

/-- The output shape of the current last layer, if any. -/
def lastShape (layers : List LayerI) : Option LayerShape :=
  layers.getLast?.map (·.outputShape)

/-- Embeds `NeuralNetwork.Add`: validate and append each argument in turn; on the
first mismatch return with the error (`true`), keeping everything appended
so far. The check is skipped while the network is empty. -/
def nnAdd : List LayerI → List LayerI → List LayerI × Bool
  | cur, [] => (cur, false)
  | cur, l :: rest =>
    match lastShape cur with
    | some s => if s ≠ l.inputShape then (cur, true) else nnAdd (cur ++ [l]) rest
    | none => nnAdd (cur ++ [l]) rest

/-- Whether the whole chain of shape checks of one `Add` call passes, given
the output shape of the current last layer (if any). -/
def chainOK : Option LayerShape → List LayerI → Bool
  | _, [] => true
  | none, l :: rest => chainOK (some l.outputShape) rest
  | some s, l :: rest =>
    if s ≠ l.inputShape then false else chainOK (some l.outputShape) rest

/-- Index of the first layer failing its shape check (= length if none). -/
def firstBad : Option LayerShape → List LayerI → ℕ
  | _, [] => 0
  | none, l :: rest => firstBad (some l.outputShape) rest + 1
  | some s, l :: rest =>
    if s ≠ l.inputShape then 0 else firstBad (some l.outputShape) rest + 1

/-- Embedding of the `mat.Matrix` 2D container used by the `nn` package's
activation functions. -/
structure Matrix where
  rows : ℕ
  cols : ℕ
  values : ℕ → ℕ → Val

/-- Embeds `Matrix.ApplyFunction`. -/
def Matrix.applyFunction (m : Matrix) (fn : Val → ℕ → ℕ → Val) : Matrix :=
  { m with values := fun r c =>
      if r < m.rows ∧ c < m.cols then fn (m.values r c) r c else m.values r c }

/-- Embeds `ActivationSoftmax.Derivative` from `src/nn/activation.go`, applied to a
copy while reading the original: for each position, the double loop adds
`m[r][c]*(1-current)` for every same-column element and — with no `else` —
additionally adds `m[r][c]*(-current)` for *every* element. -/
def softmaxDerivative (m : Matrix) : Matrix :=
  m.applyFunction fun current _ col =>
    ((List.range m.rows).map fun (r : ℕ) =>
      ((List.range m.cols).map fun (c : ℕ) =>
        (if col = c then m.values r c * (1 - current) else 0) +
          m.values r c * (-current)).sum).sum

/-- Written from the claim's words, for comparison with `softmaxDerivative`:
same-column elements contribute only the `(1-current)` diagonal term and
every *other* element contributes `-current` — "no diagonal element
receiving both weights". -/
def softmaxDerivativeClaimed (m : Matrix) : Matrix :=
  m.applyFunction fun current _ col =>
    ((List.range m.rows).map fun (r : ℕ) =>
      ((List.range m.cols).map fun (c : ℕ) =>
        if col = c then m.values r c * (1 - current)
        else m.values r c * (-current)).sum).sum

/-- Sum of one column of a matrix over its declared rows. -/
def colSum (m : Matrix) (c : ℕ) : Val :=
  ((List.range m.rows).map fun r => m.values r c).sum

/-- Embeds `Matrix.Sum` over the declared extent. -/
def Matrix.total (m : Matrix) : Val :=
  ((List.range m.rows).map fun r =>
    ((List.range m.cols).map fun c => m.values r c).sum).sum

/-- Embedding of `ml.AutoEncoder` state: the input size and the two
mirrored dense-layer stacks. -/
structure AutoEncoder where
  inputSize : ℕ
  encodingLayers : List DenseLayer
  decodingLayers : List DenseLayer

/-- Embeds `AutoEncoder.isSparse`: some layer (encoding first, then decoding) has
output width at least the original input width. -/
def AutoEncoder.isSparse (ae : AutoEncoder) : Bool :=
  ae.encodingLayers.any (fun l => ae.inputSize ≤ l.outputShape.Cols) ||
    ae.decodingLayers.any (fun l => ae.inputSize ≤ l.outputShape.Cols)

/-- The noise loop of `AutoEncoder.feedForward`: `cols/2` draws from the
random stream (each reduced mod `cols`, the range of `rand.Intn`), every
drawn column of row 0 set to zero through a `Set` whose error is
discarded. `rng` is the injected stream of random values and `k` the
cursor of the next unused draw. -/
def zeroHalfLoop (t : Tensor) (rng : ℕ → ℕ) (k : ℕ) : Tensor :=
  (List.range (t.cols / 2)).foldl
    (fun acc i => acc.setIgnore 0 0 (rng (k + i) % t.cols) 0) t

/-- The column indices drawn by one noise pass (with replacement). -/
def picksList (cols : ℕ) (rng : ℕ → ℕ) (k : ℕ) : List ℕ :=
  (List.range (cols / 2)).map fun i => rng (k + i) % cols

/-- Written from the claim's words, for comparison with `zeroHalfLoop`:
the tensor with exactly the listed columns of row 0 of frame 0 zeroed
(writes outside the bounds do nothing). -/
def zeroAtCols (t : Tensor) (picks : List ℕ) : Tensor :=
  { t with values := fun f r c =>
      if f = 0 ∧ r = 0 ∧ c ∈ picks ∧ t.inBounds f r c then 0 else t.values f r c }

/-- Embeds `AutoEncoder.feedForward`: chain the dense layers, and — only when
`train` is set and the autoencoder is sparse — zero half of the columns of
each layer's output before handing it to the next layer. Returns the
updated layers, the final tensor and the advanced random-stream cursor. -/
def aeFeedForward (ae : AutoEncoder) (layers : List DenseLayer) (t : Tensor)
    (train : Bool) (rng : ℕ → ℕ) (k : ℕ) :
    Option (List DenseLayer × Tensor × ℕ) :=
  match layers with
  | [] => some ([], t, k)
  | l :: rest =>
    match l.feedForward t with
    | none => none
    | some (l2, u) =>
      let noised := if train && ae.isSparse then (zeroHalfLoop u rng k, k + u.cols / 2)
        else (u, k)
      match aeFeedForward ae rest noised.1 train rng noised.2 with
      | none => none
      | some (rest2, v, k2) => some (l2 :: rest2, v, k2)

/-- The plain forward chain with no noise logic at all, for comparison with
the `train` and inference paths of `aeFeedForward`. -/
def denseChain (layers : List DenseLayer) (t : Tensor) :
    Option (List DenseLayer × Tensor) :=
  match layers with
  | [] => some ([], t)
  | l :: rest =>
    match l.feedForward t with
    | none => none
    | some (l2, u) =>
      match denseChain rest u with
      | none => none
      | some (rest2, v) => some (l2 :: rest2, v)

/-- Read out the single row of a final tensor, as `Encode`/`Decode` do. -/
def rowOut (t : Tensor) : List Val :=
  (List.range t.cols).map fun i => t.values 0 0 i

/-- Embeds `AutoEncoder.Encode`: the encoding half with `train = false`. -/
def AutoEncoder.encode (ae : AutoEncoder) (inputs : List Val) (rng : ℕ → ℕ) :
    Option (List Val) :=
  (aeFeedForward ae ae.encodingLayers (newValueTensor1D inputs) false rng 0).map
    fun x => rowOut x.2.1

/-- Embeds `AutoEncoder.Decode`: the decoding half with `train = false`. -/
def AutoEncoder.decode (ae : AutoEncoder) (coded : List Val) (rng : ℕ → ℕ) :
    Option (List Val) :=
  (aeFeedForward ae ae.decodingLayers (newValueTensor1D coded) false rng 0).map
    fun x => rowOut x.2.1

/-! ## Concrete inputs used by the counterexamples and witnesses -/

/-- A 3×2 matrix witness tensor for the transpose round trip. -/
def exC9 : Tensor := newValueTensor2D [[1, 2], [3, 4], [5, 6]]

/-- A 1×2 matrix `[1, 2]` probing the softmax derivative. -/
def mC4 : Matrix := ⟨1, 2, fun _ c => if c = 0 then 1 else 2⟩

/-- Cached input `[1]` of the probe dense layer. -/
def tIn1 : Tensor := newValueTensor1D [1]

/-- Cached output `[2]` of the probe dense layer (positive, so the ReLU
derivative is 1 there). -/
def tOut2 : Tensor := newValueTensor1D [2]

/-- Weights `[[3]]` of the probe dense layer. -/
def tW3 : Tensor := newValueTensor2D [[3]]

/-- Bias `[5]` of the probe dense layer. -/
def tB5 : Tensor := newValueTensor1D [5]

/-- Zero momentum buffer. -/
def tP0 : Tensor := newValueTensor2D [[0]]

/-- A 1-in/1-out dense layer with weights `[[3]]` and zero momentum buffer. -/
def exDense1 : DenseLayer :=
  ⟨⟨1, 1, 1⟩, ⟨1, 1, 1⟩, tIn1, tOut2, tW3, tB5, tP0, ActivationRELU⟩

/-- Incoming delta `[1]`. -/
def exDelta1 : Tensor := newValueTensor1D [1]

/-- Result of back-propagating `[1]` through `exDense1` at learning rate 1,
momentum 0. -/
def exBP1 : Option (DenseLayer × Tensor) := exDense1.backPropagate exDelta1 1 0

/-- The updated probe layer. -/
def exDense1b : DenseLayer := (exBP1.getD (exDense1, exDelta1)).1

/-- The next-delta tensor the probe run returns. -/
def exND1 : Tensor := (exBP1.getD (exDense1, exDelta1)).2

/-- Like `exDense1` but with momentum buffer `[[1]]`: at learning rate 0 and
momentum 1 its weights still move. -/
def lA5 : DenseLayer :=
  ⟨⟨1, 1, 1⟩, ⟨1, 1, 1⟩, tIn1, tOut2, tW3, tB5, newValueTensor2D [[1]], ActivationRELU⟩

/-- Like `exDense1` but with cached input `[0]`: a nonzero delta at learning
rate 1 leaves its weights untouched. -/
def lB5 : DenseLayer :=
  ⟨⟨1, 1, 1⟩, ⟨1, 1, 1⟩, newValueTensor1D [0], tOut2, tW3, tB5, tP0, ActivationRELU⟩

/-- Result of the `lA5` probe run (learning rate 0, momentum 0), used to
instantiate the weight-update law. -/
def exBP5 : Option (DenseLayer × Tensor) := lA5.backPropagate exDelta1 0 0

/-- Updated layer of the `lA5` probe run. -/
def lA5b : DenseLayer := (exBP5.getD (lA5, exDelta1)).1

/-- Next deltas of the `lA5` probe run. -/
def exND5 : Tensor := (exBP5.getD (lA5, exDelta1)).2

/-- Shape `1×1×1`. -/
def shpA : LayerShape := ⟨1, 1, 1⟩

/-- Shape `1×2×1`. -/
def shpB : LayerShape := ⟨1, 2, 1⟩

/-- Shape `1×3×1`. -/
def shpC : LayerShape := ⟨1, 3, 1⟩

/-- Resident layer of the probe network. -/
def exL0 : LayerI := ⟨shpA, shpA⟩

/-- First appended layer: input matches `exL0`. -/
def exL1 : LayerI := ⟨shpA, shpB⟩

/-- Second appended layer: input does not match `exL1`'s output. -/
def exL2 : LayerI := ⟨shpC, shpC⟩

/-- Two-frame 1×1 tensor, all ones. -/
def exT2f : Tensor := newValueTensor3D [[[1]], [[1]]]

/-- One-frame 1×1 tensor, value one. -/
def exT1f : Tensor := newValueTensor3D [[[1]]]

/-- A 1×1 filter `[[2]]`. -/
def filt2 : Tensor := newValueTensor2D [[2]]

/-- A 1×1 filter `[[3]]`. -/
def filt3 : Tensor := newValueTensor2D [[3]]

/-- Convolution layer on a single 1×1 input frame with the two 1×1 filters. -/
def exConv : ConvolutionLayer := newConvolutionLayer 1 1 1 [filt2, filt3] ActivationRELU

/-- Single 1×1 input frame of value one. -/
def exConvIn : Tensor := newValueTensor3D [[[1]]]

/-- The 3×2×3 flatten example from the spec. -/
def exFlatIn : Tensor :=
  newValueTensor3D
    [[[1, 2, 3], [4, 5, 6]], [[7, 8, 9], [10, 11, 12]], [[13, 14, 15], [16, 17, 18]]]

/-- A 1-in/2-out dense layer whose output width 2 meets the sparse
condition of a width-1 autoencoder. -/
def aeL : DenseLayer :=
  ⟨⟨1, 1, 1⟩, ⟨1, 2, 1⟩, newValueTensor1D [0], newValueTensor1D [0, 0],
    newValueTensor2D [[1, 1]], newValueTensor1D [0, 0], newValueTensor2D [[0, 0]],
    ActivationRELU⟩

/-- A sparse probe autoencoder (input size 1, one encoding layer of width 2). -/
def aeEx : AutoEncoder := ⟨1, [aeL], []⟩

/-- A deterministic stand-in for the injected random stream. -/
def rngEx : ℕ → ℕ := fun n => n

/-! ## Helper lemmas -/

/-- Extensionality for the tensor embedding. -/
theorem Tensor.extEq {t o : Tensor} (hf : t.frames = o.frames) (hr : t.rows = o.rows)
    (hc : t.cols = o.cols) (hv : t.values = o.values) : t = o := by
  cases t; cases o; cases hf; cases hr; cases hc; cases hv; rfl

/-- Sums over `List.range`, as written in the embedded loops, coincide with
`Finset.range` sums. -/
theorem listRangeSum (f : ℕ → Val) (n : ℕ) :
    ((List.range n).map f).sum = ∑ i ∈ Finset.range n, f i := by
  induction n with
  | zero => simp
  | succ n ih =>
    rw [List.range_succ, List.map_append, List.sum_append, Finset.sum_range_succ, ih]
    simp

/-- Appending one layer moves the last output shape to it. -/
theorem lastShape_append (cur : List LayerI) (l : LayerI) :
    lastShape (cur ++ [l]) = some l.outputShape := by
  simp [lastShape]

/-- An `ApplyFunction` call rewrites exactly the in-bounds cells. -/
theorem applyFunction_values_inB {t : Tensor} {fn : Val → ℕ → ℕ → ℕ → Val}
    {f r c : ℕ} (h : t.inBounds f r c) :
    (t.applyFunction fn).values f r c = fn (t.values f r c) f r c := by
  simp [Tensor.applyFunction, h]

/-- In-bounds value of the add-write phase. -/
theorem addT_values {t o : Tensor} {f r c : ℕ} (h : t.inBounds f r c) :
    (t.addT o).values f r c = t.values f r c + o.values f r c :=
  applyFunction_values_inB h

/-- In-bounds value of `Scale`. -/
theorem scale_values {t : Tensor} {v : Val} {f r c : ℕ} (h : t.inBounds f r c) :
    (t.scale v).values f r c = t.values f r c * v :=
  applyFunction_values_inB h

/-- In-bounds value of the elementwise-multiply write phase. -/
theorem mulT_values {t o : Tensor} {f r c : ℕ} (h : t.inBounds f r c) :
    (t.mulT o).values f r c = t.values f r c * o.values f r c :=
  applyFunction_values_inB h

/-- In-bounds value of the copy write phase. -/
theorem copyFromT_values {t o : Tensor} {f r c : ℕ} (h : t.inBounds f r c) :
    (t.copyFromT o).values f r c = o.values f r c :=
  applyFunction_values_inB h

/-- The multiply write phase fills its target region with inner products. -/
theorem mmInto_values {a b d : Tensor} {f r c : ℕ}
    (h : f < a.frames ∧ r < a.rows ∧ c < b.cols) :
    (mmInto a b d).values f r c = dotProd a b f r c := by
  simp [mmInto, h]

/-- Inversion of a successful `ScaleTensor`. -/
theorem scaleTensor_inv {t o g : Tensor} (h : t.scaleTensor o = some g) :
    t.sameDims o ∧ g = t.mulT o := by
  unfold Tensor.scaleTensor at h
  split at h
  · exact ⟨by assumption, (Option.some.inj h).symm⟩
  · exact Option.noConfusion h

/-- Inversion of a successful `AddTensor`. -/
theorem addTensor_inv {t o g : Tensor} (h : t.addTensor o = some g) :
    t.sameDims o ∧ g = t.addT o := by
  unfold Tensor.addTensor at h
  split at h
  · exact ⟨by assumption, (Option.some.inj h).symm⟩
  · exact Option.noConfusion h

/-- Inversion of a successful `SetTensor`. -/
theorem setTensor_inv {t o g : Tensor} (h : t.setTensor o = some g) :
    t.sameDims o ∧ g = t.copyFromT o := by
  unfold Tensor.setTensor at h
  split at h
  · exact ⟨by assumption, (Option.some.inj h).symm⟩
  · exact Option.noConfusion h

/-- Inversion of a successful `MatrixMultiply` with `nil` destination. -/
theorem matrixMultiply_none_inv {a b g : Tensor}
    (h : matrixMultiply a b none = some g) :
    a.frames = b.frames ∧ a.cols = b.rows ∧
      g = mmInto a b (newEmptyTensor3D a.frames a.rows b.cols) := by
  unfold matrixMultiply at h
  split at h
  · exact Option.noConfusion h
  · next hf =>
    split at h
    · exact Option.noConfusion h
    · next hc => exact ⟨not_ne_iff.mp hf, not_ne_iff.mp hc, (Option.some.inj h).symm⟩

/-- Inversion of a successful `DenseLayer.BackPropagate` run: names every
intermediate tensor of the source, in evaluation order. -/
theorem denseBackPropagate_inv {l : DenseLayer} {delta : Tensor} {lr mo : Val}
    {l2 : DenseLayer} {nd : Tensor}
    (h : l.backPropagate delta lr mo = some (l2, nd)) :
    ∃ gradient1 weightChange weights1 weights2 prev2 bias1,
      (l.Activation.deriv l.outputs).scaleTensor delta = some gradient1 ∧
      matrixMultiply (transposeT l.inputs) (gradient1.scale lr) none = some weightChange ∧
      l.Weights.addTensor weightChange = some weights1 ∧
      weights1.addTensor (l.PrevUpdate.scale mo) = some weights2 ∧
      (l.PrevUpdate.scale mo).setTensor weightChange = some prev2 ∧
      l.Bias.addTensor (gradient1.scale lr) = some bias1 ∧
      matrixMultiply delta (transposeT weights2) none = some nd ∧
      l2 = { l with Weights := weights2, PrevUpdate := prev2, Bias := bias1 } := by
  unfold DenseLayer.backPropagate at h
  by_cases hfr : delta.frames = 1
  · rw [if_neg (by simp [hfr])] at h
    cases hg : (l.Activation.deriv l.outputs).scaleTensor delta with
    | none => simp only [hg] at h; exact Option.noConfusion h
    | some gradient1 =>
      simp only [hg] at h
      cases hwc : matrixMultiply (transposeT l.inputs) (gradient1.scale lr) none with
      | none => simp only [hwc] at h; exact Option.noConfusion h
      | some weightChange =>
        simp only [hwc] at h
        cases hw1 : l.Weights.addTensor weightChange with
        | none => simp only [hw1] at h; exact Option.noConfusion h
        | some weights1 =>
          simp only [hw1] at h
          cases hw2 : weights1.addTensor (l.PrevUpdate.scale mo) with
          | none => simp only [hw2] at h; exact Option.noConfusion h
          | some weights2 =>
            simp only [hw2] at h
            cases hp2 : (l.PrevUpdate.scale mo).setTensor weightChange with
            | none => simp only [hp2] at h; exact Option.noConfusion h
            | some prev2 =>
              simp only [hp2] at h
              cases hb1 : l.Bias.addTensor (gradient1.scale lr) with
              | none => simp only [hb1] at h; exact Option.noConfusion h
              | some bias1 =>
                simp only [hb1] at h
                cases hnd : matrixMultiply delta (transposeT weights2) none with
                | none => simp only [hnd] at h; exact Option.noConfusion h
                | some nextDeltas =>
                  simp only [hnd, Option.some.injEq, Prod.mk.injEq] at h
                  obtain ⟨hl, hn⟩ := h
                  refine ⟨gradient1, weightChange, weights1, weights2, prev2,
                    bias1, rfl, hwc, hw1, hw2, hp2, hb1, ?_, hl.symm⟩
                  rw [← hn]
                  exact hnd
  · rw [if_pos hfr] at h
    exact Option.noConfusion h

/-- Membership in the loop-order index list is exactly in-bounds. -/
theorem mem_tripleIndices {F R C : ℕ} {p : ℕ × ℕ × ℕ} :
    p ∈ tripleIndices F R C ↔ p.1 < F ∧ p.2.1 < R ∧ p.2.2 < C := by
  obtain ⟨f, r, c⟩ := p
  simp only [tripleIndices, List.mem_flatMap, List.mem_map, List.mem_range,
    Prod.mk.injEq]
  constructor
  · rintro ⟨a, ha, b, hb, d, hd, rfl, rfl, rfl⟩
    exact ⟨ha, hb, hd⟩
  · rintro ⟨hf, hr, hc⟩
    exact ⟨f, hf, r, hr, c, hc, rfl, rfl, rfl⟩

/-- Splitting off the last frame of the loop order. -/
theorem tripleIndices_succ (F R C : ℕ) :
    tripleIndices (F + 1) R C = tripleIndices F R C ++ frameBlock R C F := by
  unfold tripleIndices frameBlock
  rw [List.range_succ, List.flatMap_append]
  simp

/-- The loop order for `a` frames is a prefix of that for more frames. -/
theorem tripleIndices_decomp (a F R C : ℕ) (h : a ≤ F) :
    ∃ sfx, tripleIndices F R C = tripleIndices a R C ++ sfx := by
  obtain ⟨d, rfl⟩ : ∃ d, F = a + d := ⟨F - a, by omega⟩
  exact ⟨((List.range d).map (a + ·)).flatMap fun f =>
      (List.range R).flatMap fun r => (List.range C).map fun c => (f, r, c),
    by unfold tripleIndices; rw [List.range_add, List.flatMap_append]⟩

/-- Splitting off the last row of one frame block. -/
theorem frameBlock_succ (R C f : ℕ) :
    frameBlock (R + 1) C f =
      frameBlock R C f ++ (List.range C).map fun c => (f, R, c) := by
  unfold frameBlock
  rw [List.range_succ, List.flatMap_append]
  simp

/-- Length of one frame block. -/
theorem frameBlock_length (R C f : ℕ) : (frameBlock R C f).length = R * C := by
  induction R with
  | zero => simp [frameBlock]
  | succ R ih =>
    rw [frameBlock_succ, List.length_append, ih, List.length_map, List.length_range]
    ring

/-- Length of the loop-order index list. -/
theorem tripleIndices_length (F R C : ℕ) :
    (tripleIndices F R C).length = F * R * C := by
  induction F with
  | zero => simp [tripleIndices]
  | succ F ih =>
    rw [tripleIndices_succ, List.length_append, ih, frameBlock_length]
    ring

/-- Position of an index triple within one frame block. -/
theorem frameBlock_getElem (R C f r c : ℕ) (hr : r < R) (hc : c < C) :
    (frameBlock R C f)[r * C + c]? = some (f, r, c) := by
  induction R with
  | zero => omega
  | succ R ih =>
    rw [frameBlock_succ]
    by_cases hrR : r < R
    · rw [List.getElem?_append_left]
      · exact ih hrR
      · rw [frameBlock_length]
        calc r * C + c < r * C + C := by omega
          _ = (r + 1) * C := by ring
          _ ≤ R * C := Nat.mul_le_mul_right C (by omega)
    · have hrEq : r = R := by omega
      subst hrEq
      rw [List.getElem?_append_right (by rw [frameBlock_length]; omega)]
      rw [frameBlock_length, Nat.add_sub_cancel_left]
      rw [List.getElem?_map, List.getElem?_range hc]
      rfl

/-- Position of an index triple within the whole loop order: the flat index
is `(f·R + r)·C + c`, frame-major, then row, then column. -/
theorem tripleIndices_getElem (F R C f r c : ℕ)
    (hf : f < F) (hr : r < R) (hc : c < C) :
    (tripleIndices F R C)[(f * R + r) * C + c]? = some (f, r, c) := by
  induction F with
  | zero => omega
  | succ F ih =>
    rw [tripleIndices_succ]
    by_cases hfF : f < F
    · rw [List.getElem?_append_left]
      · exact ih hfF
      · rw [tripleIndices_length]
        calc (f * R + r) * C + c < (f * R + r) * C + C := by omega
          _ = (f * R + r + 1) * C := by ring
          _ ≤ ((f + 1) * R) * C := by
            refine Nat.mul_le_mul_right C ?_
            have : (f + 1) * R = f * R + R := by ring
            omega
          _ ≤ (F * R) * C := by
            exact Nat.mul_le_mul_right C (Nat.mul_le_mul_right R (by omega))
          _ = F * R * C := by ring
    · have hfEq : f = F := by omega
      subst hfEq
      have hsplit : f * R * C ≤ (f * R + r) * C + c := by
        have : (f * R + r) * C = f * R * C + r * C := by ring
        omega
      rw [List.getElem?_append_right (by rw [tripleIndices_length]; exact hsplit)]
      rw [tripleIndices_length]
      have harith : (f * R + r) * C + c - f * R * C = r * C + c := by
        have : (f * R + r) * C = f * R * C + r * C := by ring
        omega
      rw [harith]
      exact frameBlock_getElem R C f r c hr hc

/-- The comparison loop over a concatenation: the second part only runs if
the first completed with all elements equal. -/
theorem equalsAux_append (t o : Tensor) (l1 l2 : List (ℕ × ℕ × ℕ)) :
    equalsAux t o (l1 ++ l2) =
      match equalsAux t o l1 with
      | some true => equalsAux t o l2
      | x => x := by
  induction l1 with
  | nil => simp [equalsAux]
  | cons p rest ih =>
    obtain ⟨f, r, c⟩ := p
    simp only [List.cons_append, equalsAux]
    cases t.getChecked f r c with
    | none => rfl
    | some a =>
      cases o.getChecked f r c with
      | none => rfl
      | some b =>
        by_cases hab : a = b
        · simp [hab, ih]
        · simp [hab]

/-- The comparison loop completes with `true` when every listed cell is in
bounds on both sides and equal. -/
theorem equalsAux_all_true (t o : Tensor) (l : List (ℕ × ℕ × ℕ))
    (h : ∀ p ∈ l, t.inBounds p.1 p.2.1 p.2.2 ∧ o.inBounds p.1 p.2.1 p.2.2 ∧
      t.values p.1 p.2.1 p.2.2 = o.values p.1 p.2.1 p.2.2) :
    equalsAux t o l = some true := by
  induction l with
  | nil => rfl
  | cons p rest ih =>
    obtain ⟨f, r, c⟩ := p
    obtain ⟨hbt, hbo, hv⟩ := h (f, r, c) (by simp)
    simp only [equalsAux, Tensor.getChecked, if_pos hbt, if_pos hbo]
    rw [if_neg (by simp [hv])]
    exact ih fun q hq => h q (List.mem_cons_of_mem _ hq)

/-- The comparison loop aborts (models the `Get` panic) the moment it hits
a cell out of bounds for the other tensor. -/
theorem equalsAux_head_panic (t o : Tensor) (f r c : ℕ) (rest : List (ℕ × ℕ × ℕ))
    (h : ¬ o.inBounds f r c) :
    equalsAux t o ((f, r, c) :: rest) = none := by
  have ho : o.getChecked f r c = none := by simp [Tensor.getChecked, h]
  cases htc : t.getChecked f r c with
  | none => simp [equalsAux, htc, ho]
  | some a => simp [equalsAux, htc, ho]

/-- With every listed cell in bounds on both sides, the loop returns the
conjunction of the cell equalities (early-exit `false` included). -/
theorem equalsAux_inbounds_eq (t o : Tensor) (l : List (ℕ × ℕ × ℕ))
    (h : ∀ p ∈ l, t.inBounds p.1 p.2.1 p.2.2 ∧ o.inBounds p.1 p.2.1 p.2.2) :
    equalsAux t o l =
      some (l.all fun p =>
        decide (t.values p.1 p.2.1 p.2.2 = o.values p.1 p.2.1 p.2.2)) := by
  induction l with
  | nil => rfl
  | cons p rest ih =>
    obtain ⟨f, r, c⟩ := p
    obtain ⟨hbt, hbo⟩ := h (f, r, c) (by simp)
    simp only [equalsAux, Tensor.getChecked, if_pos hbt, if_pos hbo, List.all_cons]
    by_cases hv : t.values f r c = o.values f r c
    · rw [if_neg (by simp [hv]), ih fun q hq => h q (List.mem_cons_of_mem _ hq)]
      simp [hv]
    · rw [if_pos (by simp [hv])]
      simp [hv]

/-! ## C6 -/

/-- C6: `Equals` returns `false` whenever rows or columns differ but never
compares frame counts: it loops over the receiver's own frame count, so
with more frames than `other` (and the overlapping cells equal, so that no
early `false` return cuts the loop short) it reads `other` out of bounds
and hits the fatal bounds check in `Get`; with fewer frames it completes,
silently ignoring the trailing frames of `other` — the result depends only
on cells within the receiver's own extents. -/
theorem tensor_equals_frame_blind (t o : Tensor) :
    ((t.rows ≠ o.rows ∨ t.cols ≠ o.cols) → equalsRun t o = some false) ∧
    (t.rows = o.rows → t.cols = o.cols → o.frames < t.frames →
      0 < t.rows → 0 < t.cols →
      (∀ f, f < o.frames → ∀ r, r < t.rows → ∀ c, c < t.cols →
        t.values f r c = o.values f r c) →
      equalsRun t o = none) ∧
    (t.rows = o.rows → t.cols = o.cols → t.frames ≤ o.frames →
      ((equalsRun t o = some true ↔
        ∀ f, f < t.frames → ∀ r, r < t.rows → ∀ c, c < t.cols →
          t.values f r c = o.values f r c) ∧
       equalsRun t o ≠ none)) := by
  refine ⟨fun h => by simp [equalsRun, h], ?_, ?_⟩
  · intro hrw hcl hfo hR hC hagree
    obtain ⟨sfx, hdec⟩ := tripleIndices_decomp o.frames t.frames t.rows t.cols
      (le_of_lt hfo)
    have hget : (tripleIndices t.frames t.rows t.cols)[o.frames * t.rows * t.cols]? =
        some (o.frames, 0, 0) := by
      have := tripleIndices_getElem t.frames t.rows t.cols o.frames 0 0 hfo hR hC
      have harith : (o.frames * t.rows + 0) * t.cols + 0 =
          o.frames * t.rows * t.cols := by ring
      rwa [harith] at this
    rw [hdec, List.getElem?_append_right (by rw [tripleIndices_length])] at hget
    rw [tripleIndices_length, Nat.sub_self] at hget
    obtain ⟨tail, rfl⟩ : ∃ tail, sfx = (o.frames, 0, 0) :: tail := by
      cases sfx with
      | nil => simp at hget
      | cons q tail =>
        refine ⟨tail, ?_⟩
        simp only [List.getElem?_cons_zero, Option.some.injEq] at hget
        rw [hget]
    have hpre : ∀ p ∈ tripleIndices o.frames t.rows t.cols,
        t.inBounds p.1 p.2.1 p.2.2 ∧ o.inBounds p.1 p.2.1 p.2.2 ∧
          t.values p.1 p.2.1 p.2.2 = o.values p.1 p.2.1 p.2.2 := by
      intro p hp
      obtain ⟨h1, h2, h3⟩ := mem_tripleIndices.mp hp
      exact ⟨⟨lt_trans h1 hfo, h2, h3⟩, ⟨h1, hrw ▸ h2, hcl ▸ h3⟩,
        hagree p.1 h1 p.2.1 h2 p.2.2 h3⟩
    rw [equalsRun, if_neg (by simp [hrw, hcl]), hdec, equalsAux_append,
      equalsAux_all_true t o _ hpre]
    exact equalsAux_head_panic t o o.frames 0 0 tail (fun hb => by
      exact absurd hb.1 (lt_irrefl o.frames))
  · intro hrw hcl hfo
    have hin : ∀ p ∈ tripleIndices t.frames t.rows t.cols,
        t.inBounds p.1 p.2.1 p.2.2 ∧ o.inBounds p.1 p.2.1 p.2.2 := by
      intro p hp
      obtain ⟨h1, h2, h3⟩ := mem_tripleIndices.mp hp
      exact ⟨⟨h1, h2, h3⟩, ⟨lt_of_lt_of_le h1 hfo, hrw ▸ h2, hcl ▸ h3⟩⟩
    have hrun : equalsRun t o =
        some ((tripleIndices t.frames t.rows t.cols).all fun p =>
          decide (t.values p.1 p.2.1 p.2.2 = o.values p.1 p.2.1 p.2.2)) := by
      rw [equalsRun, if_neg (by simp [hrw, hcl])]
      exact equalsAux_inbounds_eq t o _ hin
    rw [hrun]
    refine ⟨?_, by simp⟩
    rw [Option.some.injEq]
    constructor
    · intro hall f hf r hr c hc
      have := List.all_eq_true.mp hall (f, r, c)
        (mem_tripleIndices.mpr ⟨hf, hr, hc⟩)
      exact of_decide_eq_true this
    · intro hpt
      refine List.all_eq_true.mpr fun p hp => ?_
      obtain ⟨h1, h2, h3⟩ := mem_tripleIndices.mp hp
      exact decide_eq_true (hpt p.1 h1 p.2.1 h2 p.2.2 h3)

/-- Witness: a 2-frame receiver against a 1-frame `other` with equal
overlapping cells makes `Equals` hit the fatal bounds check. -/
theorem tensor_equals_frame_blind_witness : equalsRun exT2f exT1f = none :=
  (tensor_equals_frame_blind exT2f exT1f).2.1 rfl rfl (by decide) (by decide)
    (by decide) (by decide)

/-! ## C1 -/

/-- Counterexample to C1 as stated: back-propagating delta `[1]` through
the concrete layer (weights `[[3]]`, input `[1]`, output `[2]`, ReLU,
learning rate 1, momentum 0) returns next deltas `[4]`, computed from the
updated weights `[[4]]`, whereas delta times the transpose of the
pre-update weights is `[3]`. -/
theorem dense_nextdelta_cex :
    ((exDense1.backPropagate exDelta1 1 0).map fun p => p.2.values 0 0 0) = some 4 ∧
    ((matrixMultiply exDelta1 (transposeT exDense1.Weights) none).map
      fun t => t.values 0 0 0) = some 3 ∧
    ((4 : Val) ≠ 3) := by
  norm_num [DenseLayer.backPropagate, Tensor.scaleTensor, Tensor.mulT, Tensor.addTensor,
    Tensor.addT, Tensor.setTensor, Tensor.copyFromT, Tensor.scale, Tensor.applyFunction,
    Tensor.sameDims, Tensor.inBounds, matrixMultiply, mmInto, dotProd, transposeT,
    transposeInto, newEmptyTensor3D, exDense1, exDelta1, tIn1, tOut2, tW3, tB5, tP0,
    ActivationRELU, reluDeriv, newValueTensor1D, newValueTensor2D, List.range_succ]

/-- C1 (amended): a successful `DenseLayer.BackPropagate` returns
`nextDelta = delta · weightsᵗ` computed from the **post-update** weights —
the weights as they stand after this call's weight-change and momentum
additions — not the pre-update weights. -/
theorem dense_nextdelta_postupdate (l : DenseLayer) (delta : Tensor) (lr mo : Val)
    (l2 : DenseLayer) (nd : Tensor)
    (h : l.backPropagate delta lr mo = some (l2, nd)) :
    matrixMultiply delta (transposeT l2.Weights) none = some nd := by
  obtain ⟨g1, wc, w1, w2, p2, b1, hg, hwc, hw1, hw2, hp2, hb1, hnd, hl2⟩ :=
    denseBackPropagate_inv h
  rw [hl2]
  exact hnd

/-- Witness: the amended C1 statement at the concrete probe run. -/
theorem dense_nextdelta_postupdate_witness :
    matrixMultiply exDelta1 (transposeT exDense1b.Weights) none = some exND1 :=
  dense_nextdelta_postupdate exDense1 exDelta1 1 0 exDense1b exND1 rfl

/-! ## C5 -/

/-- Counterexample to C5 as stated: with momentum buffer `[[1]]` and
momentum 1, learning rate 0 still moves the weights from `[[3]]` to
`[[4]]`; and with cached input `[0]` and zero momentum buffer, the nonzero
delta `[1]` at learning rate 1 leaves the weights at `[[3]]`. -/
theorem dense_weights_change_cex :
    ((lA5.backPropagate exDelta1 0 1).map fun p => p.1.Weights.values 0 0 0) = some 4 ∧
    lA5.Weights.values 0 0 0 = 3 ∧
    ((lB5.backPropagate exDelta1 1 1).map fun p => p.1.Weights.values 0 0 0) = some 3 ∧
    lB5.Weights.values 0 0 0 = 3 ∧
    exDelta1.values 0 0 0 ≠ 0 ∧ ((4 : Val) ≠ 3) := by
  norm_num [DenseLayer.backPropagate, Tensor.scaleTensor, Tensor.mulT, Tensor.addTensor,
    Tensor.addT, Tensor.setTensor, Tensor.copyFromT, Tensor.scale, Tensor.applyFunction,
    Tensor.sameDims, Tensor.inBounds, matrixMultiply, mmInto, dotProd, transposeT,
    transposeInto, newEmptyTensor3D, lA5, lB5, exDelta1, tIn1, tOut2, tW3, tB5, tP0,
    ActivationRELU, reluDeriv, newValueTensor1D, newValueTensor2D, List.range_succ]

/-- C5 (amended): a successful `BackPropagate` changes each weight by
exactly `weightChange + momentum·PrevUpdate`, where
`weightChange = inputᵗ · (lr · (derivative(outputs) ⊙ delta))`; hence the
weights are guaranteed unchanged at learning rate 0 only when the momentum
term also vanishes (e.g. momentum 0), and a nonzero delta with positive
learning rate changes them only when that total update is nonzero. -/
theorem dense_weight_update_law (l : DenseLayer) (delta : Tensor) (lr mo : Val)
    (l2 : DenseLayer) (nd : Tensor)
    (h : l.backPropagate delta lr mo = some (l2, nd)) :
    (∀ f r c, l.Weights.inBounds f r c →
      l2.Weights.values f r c =
        l.Weights.values f r c +
          dotProd (transposeT l.inputs)
            (((l.Activation.deriv l.outputs).mulT delta).scale lr) f r c +
          l.PrevUpdate.values f r c * mo) ∧
    (lr = 0 → mo = 0 → ∀ f r c, l.Weights.inBounds f r c →
      l2.Weights.values f r c = l.Weights.values f r c) := by
  obtain ⟨g1, wc, w1, w2, p2, b1, hg, hwc, hw1, hw2, hp2, hbias, hnd, hl2⟩ :=
    denseBackPropagate_inv h
  obtain ⟨hgd, rfl⟩ := scaleTensor_inv hg
  obtain ⟨hmf, hmc, rfl⟩ := matrixMultiply_none_inv hwc
  obtain ⟨hd1, rfl⟩ := addTensor_inv hw1
  obtain ⟨hd2, rfl⟩ := addTensor_inv hw2
  have ef : l.Weights.frames = (transposeT l.inputs).frames := hd1.1
  have er : l.Weights.rows = (transposeT l.inputs).rows := hd1.2.1
  have ec : l.Weights.cols =
      (((l.Activation.deriv l.outputs).mulT delta).scale lr).cols := hd1.2.2
  have efP : l.Weights.frames = l.PrevUpdate.frames := hd2.1
  have erP : l.Weights.rows = l.PrevUpdate.rows := hd2.2.1
  have ecP : l.Weights.cols = l.PrevUpdate.cols := hd2.2.2
  have hmain : ∀ f r c, l.Weights.inBounds f r c →
      l2.Weights.values f r c =
        l.Weights.values f r c +
          dotProd (transposeT l.inputs)
            (((l.Activation.deriv l.outputs).mulT delta).scale lr) f r c +
          l.PrevUpdate.values f r c * mo := by
    intro f r c hb
    have hbW1 : (l.Weights.addT
        (mmInto (transposeT l.inputs)
          (((l.Activation.deriv l.outputs).mulT delta).scale lr)
          (newEmptyTensor3D (transposeT l.inputs).frames (transposeT l.inputs).rows
            (((l.Activation.deriv l.outputs).mulT delta).scale lr).cols))).inBounds
        f r c := hb
    have hbP : l.PrevUpdate.inBounds f r c :=
      ⟨efP ▸ hb.1, erP ▸ hb.2.1, ecP ▸ hb.2.2⟩
    have hmm : f < (transposeT l.inputs).frames ∧ r < (transposeT l.inputs).rows ∧
        c < (((l.Activation.deriv l.outputs).mulT delta).scale lr).cols :=
      ⟨ef ▸ hb.1, er ▸ hb.2.1, ec ▸ hb.2.2⟩
    rw [hl2]
    show ((l.Weights.addT _).addT (l.PrevUpdate.scale mo)).values f r c = _
    rw [addT_values hbW1, addT_values hb, mmInto_values hmm, scale_values hbP]
  refine ⟨hmain, ?_⟩
  rintro rfl rfl f r c hb
  rw [hmain f r c hb]
  have hzero : dotProd (transposeT l.inputs)
      (((l.Activation.deriv l.outputs).mulT delta).scale 0) f r c = 0 := by
    apply List.sum_eq_zero
    intro x hx
    obtain ⟨i, hi, rfl⟩ := List.mem_map.mp hx
    have hiR := List.mem_range.mp hi
    have hgB : (((l.Activation.deriv l.outputs).mulT delta).scale 0).inBounds f i c :=
      ⟨hmf ▸ ef ▸ hb.1, hmc ▸ hiR, ec ▸ hb.2.2⟩
    have hgB2 : ((l.Activation.deriv l.outputs).mulT delta).inBounds f i c := hgB
    rw [scale_values hgB2, mul_zero, mul_zero]
  rw [hzero, mul_zero, add_zero, add_zero]

/-- Witness: the amended C5 statement at the concrete probe run of `lA5`
with learning rate 0 and momentum 0. -/
theorem dense_weight_update_law_witness :
    (∀ f r c, lA5.Weights.inBounds f r c →
      lA5b.Weights.values f r c =
        lA5.Weights.values f r c +
          dotProd (transposeT lA5.inputs)
            (((lA5.Activation.deriv lA5.outputs).mulT exDelta1).scale 0) f r c +
          lA5.PrevUpdate.values f r c * 0) ∧
    ((0 : Val) = 0 → (0 : Val) = 0 → ∀ f r c, lA5.Weights.inBounds f r c →
      lA5b.Weights.values f r c = lA5.Weights.values f r c) :=
  dense_weight_update_law lA5 exDelta1 0 0 lA5b exND5 rfl

/-! ## C2 -/

/-- C2 (the code evaluated at the failing input): a 1-frame 1×1 input of
value 1 through two 1×1 filters `[[2]]` and `[[3]]` (ReLU). The layer
declares 1·2 = 2 output frames, but `FeedForward` writes every filter's
correlation to the *input's* frame index, so filter 2 overwrites filter 1:
output frame 0 holds 3 (the last filter's result) and output frame 1 stays
0 — the per-(filter, frame) results 2 and 3 do not land in distinct output
frames as the layer's own output allocation intends. -/
theorem convolution_frame_overwrite :
    exConv.outputShape.Frames = 2 ∧
    (exConv.feedForward exConvIn).2.frames = 2 ∧
    (exConv.feedForward exConvIn).2.values 0 0 0 = 3 ∧
    (exConv.feedForward exConvIn).2.values 1 0 0 = 0 ∧
    ¬(((exConv.feedForward exConvIn).2.values 0 0 0 = 2 ∧
       (exConv.feedForward exConvIn).2.values 1 0 0 = 3) ∨
      ((exConv.feedForward exConvIn).2.values 0 0 0 = 3 ∧
       (exConv.feedForward exConvIn).2.values 1 0 0 = 2)) := by
  norm_num [ConvolutionLayer.feedForward, convWriteFilter, convolutionAt,
    Tensor.setTensorIgnore, Tensor.setTensor, Tensor.copyFromT, Tensor.applyFunction,
    Tensor.sameDims, Tensor.inBounds, exConv, newConvolutionLayer, exConvIn, filt2,
    filt3, ActivationRELU, reluFunc, newValueTensor2D, newValueTensor3D,
    newEmptyTensor3D, List.range_succ, List.foldl]

/-! ## C8 -/

/-- The flat index of an in-bounds triple is below the total size. -/
theorem flatIndex_lt (F R C f r c : ℕ) (hf : f < F) (hr : r < R) (hc : c < C) :
    (f * R + r) * C + c < F * R * C :=
  calc (f * R + r) * C + c < (f * R + r) * C + C := by omega
    _ = (f * R + r + 1) * C := by ring
    _ ≤ ((f + 1) * R) * C := by
      refine Nat.mul_le_mul_right C ?_
      have : (f + 1) * R = f * R + R := by ring
      omega
    _ ≤ (F * R) * C := Nat.mul_le_mul_right C (Nat.mul_le_mul_right R (by omega))
    _ = F * R * C := by ring

/-- Dimensions survive an error-discarding `Set`. -/
theorem setIgnore_frames (t : Tensor) (f r c : ℕ) (v : Val) :
    (t.setIgnore f r c v).frames = t.frames := by
  unfold Tensor.setIgnore
  split <;> rfl

/-- Dimensions survive an error-discarding `Set`. -/
theorem setIgnore_rows (t : Tensor) (f r c : ℕ) (v : Val) :
    (t.setIgnore f r c v).rows = t.rows := by
  unfold Tensor.setIgnore
  split <;> rfl

/-- Dimensions survive an error-discarding `Set`. -/
theorem setIgnore_cols (t : Tensor) (f r c : ℕ) (v : Val) :
    (t.setIgnore f r c v).cols = t.cols := by
  unfold Tensor.setIgnore
  split <;> rfl

/-- Bounds checks are unaffected by an error-discarding `Set`. -/
theorem setIgnore_inBounds_iff (t : Tensor) (f r c : ℕ) (v : Val) (g s d : ℕ) :
    (t.setIgnore f r c v).inBounds g s d ↔ t.inBounds g s d := by
  unfold Tensor.inBounds
  rw [setIgnore_frames, setIgnore_rows, setIgnore_cols]

/-- The value written — or preserved — by an error-discarding `Set`. -/
theorem setIgnore_values (t : Tensor) (f r c : ℕ) (v : Val) (g s d : ℕ) :
    (t.setIgnore f r c v).values g s d =
      if t.inBounds f r c ∧ g = f ∧ s = r ∧ d = c then v else t.values g s d := by
  by_cases hb : t.inBounds f r c
  · simp [Tensor.setIgnore, Tensor.updateAt, hb]
  · simp [Tensor.setIgnore, Tensor.updateAt, hb]

/-- The flatten write loop preserves the output buffer's dimensions. -/
theorem flatLoop_frames (inputs : Tensor) (out : Tensor) (k : ℕ)
    (l : List (ℕ × ℕ × ℕ)) : (flatLoop inputs out k l).frames = out.frames := by
  induction l generalizing out k with
  | nil => rfl
  | cons p rest ih =>
    obtain ⟨f, r, c⟩ := p
    rw [flatLoop, ih, setIgnore_frames]

/-- The flatten write loop preserves the output buffer's dimensions. -/
theorem flatLoop_rows (inputs : Tensor) (out : Tensor) (k : ℕ)
    (l : List (ℕ × ℕ × ℕ)) : (flatLoop inputs out k l).rows = out.rows := by
  induction l generalizing out k with
  | nil => rfl
  | cons p rest ih =>
    obtain ⟨f, r, c⟩ := p
    rw [flatLoop, ih, setIgnore_rows]

/-- The flatten write loop preserves the output buffer's dimensions. -/
theorem flatLoop_cols (inputs : Tensor) (out : Tensor) (k : ℕ)
    (l : List (ℕ × ℕ × ℕ)) : (flatLoop inputs out k l).cols = out.cols := by
  induction l generalizing out k with
  | nil => rfl
  | cons p rest ih =>
    obtain ⟨f, r, c⟩ := p
    rw [flatLoop, ih, setIgnore_cols]

/-- The flatten write loop never touches flat indices below its counter. -/
theorem flatLoop_untouched (inputs : Tensor) (out : Tensor) (k : ℕ)
    (l : List (ℕ × ℕ × ℕ)) (j : ℕ) (hj : j < k) :
    (flatLoop inputs out k l).values 0 0 j = out.values 0 0 j := by
  induction l generalizing out k with
  | nil => rfl
  | cons p rest ih =>
    obtain ⟨f, r, c⟩ := p
    rw [flatLoop, ih _ _ (by omega), setIgnore_values]
    rw [if_neg (by rintro ⟨_, _, _, rfl⟩; omega)]

/-- The flatten write loop puts the `p`-th listed input cell at flat index
`k + p` of row 0, provided that index is in the output's bounds. -/
theorem flatLoop_writes (inputs : Tensor) (out : Tensor) (k : ℕ)
    (l : List (ℕ × ℕ × ℕ)) (p : ℕ) (q : ℕ × ℕ × ℕ)
    (hq : l[p]? = some q) (hb : out.inBounds 0 0 (k + p)) :
    (flatLoop inputs out k l).values 0 0 (k + p) =
      inputs.values q.1 q.2.1 q.2.2 := by
  induction l generalizing out k p with
  | nil => simp at hq
  | cons hd rest ih =>
    obtain ⟨f, r, c⟩ := hd
    cases p with
    | zero =>
      simp only [List.getElem?_cons_zero, Option.some.injEq] at hq
      subst hq
      rw [Nat.add_zero, flatLoop,
        flatLoop_untouched inputs _ (k + 1) rest k (by omega),
        setIgnore_values, if_pos ⟨by rwa [Nat.add_zero] at hb, rfl, rfl, rfl⟩]
    | succ p =>
      have hstep : k + (p + 1) = (k + 1) + p := by omega
      rw [flatLoop, hstep]
      rw [List.getElem?_cons_succ] at hq
      refine ih _ _ _ hq ?_
      rw [setIgnore_inBounds_iff]
      rwa [← hstep]

/-- C8: flatten writes input cell (frame, row, col) to flat index
`((frame·Rows)+row)·Cols+col` of a 1×1×(rows·cols·frames) output, and after
the forward pass `BackPropagate` returns the cached tensor, element for
element equal to the original input. -/
theorem flatten_frame_major (inputRows inputCols inputFrames : ℕ)
    (inputs : Tensor) (lr mo : Val)
    (hf : inputs.frames = inputFrames) (hr : inputs.rows = inputRows)
    (hc : inputs.cols = inputCols) :
    ((newFlattenLayer inputRows inputCols inputFrames).feedForward inputs).2.frames
        = 1 ∧
    ((newFlattenLayer inputRows inputCols inputFrames).feedForward inputs).2.rows
        = 1 ∧
    ((newFlattenLayer inputRows inputCols inputFrames).feedForward inputs).2.cols
        = inputRows * inputCols * inputFrames ∧
    (∀ f, f < inputFrames → ∀ r, r < inputRows → ∀ c, c < inputCols →
      ((newFlattenLayer inputRows inputCols inputFrames).feedForward inputs).2.values
          0 0 ((f * inputRows + r) * inputCols + c) = inputs.values f r c) ∧
    (((newFlattenLayer inputRows inputCols inputFrames).feedForward inputs).1.backPropagate
        ((newFlattenLayer inputRows inputCols inputFrames).feedForward inputs).2 lr mo =
      some (((newFlattenLayer inputRows inputCols inputFrames).feedForward inputs).1,
        ((newFlattenLayer inputRows inputCols inputFrames).feedForward inputs).1.inputs)) ∧
    (∀ f, f < inputFrames → ∀ r, r < inputRows → ∀ c, c < inputCols →
      ((newFlattenLayer inputRows inputCols inputFrames).feedForward inputs).1.inputs.values
          f r c = inputs.values f r c) := by
  subst hf hr hc
  have hffv : ((newFlattenLayer inputs.rows inputs.cols inputs.frames).feedForward
        inputs).2 =
      flatLoop inputs (newEmptyTensor1D (inputs.rows * inputs.cols * inputs.frames))
        0 (tripleIndices inputs.frames inputs.rows inputs.cols) := rfl
  have hsame : (newEmptyTensor3D inputs.frames inputs.rows inputs.cols).sameDims inputs :=
    ⟨rfl, rfl, rfl⟩
  have hcache :
      ((newFlattenLayer inputs.rows inputs.cols inputs.frames).feedForward inputs).1.inputs =
        (newEmptyTensor3D inputs.frames inputs.rows inputs.cols).copyFromT inputs := by
    show (newEmptyTensor3D inputs.frames inputs.rows inputs.cols).setTensorIgnore inputs = _
    unfold Tensor.setTensorIgnore Tensor.setTensor
    rw [if_pos hsame]
    rfl
  refine ⟨?_, ?_, ?_, ?_, rfl, ?_⟩
  · rw [hffv, flatLoop_frames]; rfl
  · rw [hffv, flatLoop_rows]; rfl
  · rw [hffv, flatLoop_cols]; rfl
  · intro f hfF r hrR c hcC
    rw [hffv]
    have hidx := flatIndex_lt inputs.frames inputs.rows inputs.cols f r c hfF hrR hcC
    have hget := tripleIndices_getElem inputs.frames inputs.rows inputs.cols f r c
      hfF hrR hcC
    have hb : (newEmptyTensor1D (inputs.rows * inputs.cols * inputs.frames)).inBounds
        0 0 (0 + ((f * inputs.rows + r) * inputs.cols + c)) := by
      refine ⟨Nat.one_pos, Nat.one_pos, ?_⟩
      show 0 + ((f * inputs.rows + r) * inputs.cols + c) <
        inputs.rows * inputs.cols * inputs.frames
      have : inputs.rows * inputs.cols * inputs.frames =
          inputs.frames * inputs.rows * inputs.cols := by ring
      omega
    have := flatLoop_writes inputs
      (newEmptyTensor1D (inputs.rows * inputs.cols * inputs.frames)) 0
      (tripleIndices inputs.frames inputs.rows inputs.cols)
      ((f * inputs.rows + r) * inputs.cols + c) (f, r, c) hget hb
    rwa [Nat.zero_add] at this
  · intro f hfF r hrR c hcC
    rw [hcache]
    exact copyFromT_values ⟨hfF, hrR, hcC⟩

/-- Witness: the spec's 3×2×3 example flattens to the row `[1 … 18]`, and
the theorem instantiated there. -/
theorem flatten_frame_major_witness :
    (((newFlattenLayer 2 3 3).feedForward exFlatIn).2.frames = 1 ∧
     ((newFlattenLayer 2 3 3).feedForward exFlatIn).2.rows = 1 ∧
     ((newFlattenLayer 2 3 3).feedForward exFlatIn).2.cols = 2 * 3 * 3 ∧
     (∀ f, f < 3 → ∀ r, r < 2 → ∀ c, c < 3 →
       ((newFlattenLayer 2 3 3).feedForward exFlatIn).2.values
           0 0 ((f * 2 + r) * 3 + c) = exFlatIn.values f r c) ∧
     (((newFlattenLayer 2 3 3).feedForward exFlatIn).1.backPropagate
         ((newFlattenLayer 2 3 3).feedForward exFlatIn).2 0 0 =
       some (((newFlattenLayer 2 3 3).feedForward exFlatIn).1,
         ((newFlattenLayer 2 3 3).feedForward exFlatIn).1.inputs)) ∧
     (∀ f, f < 3 → ∀ r, r < 2 → ∀ c, c < 3 →
       ((newFlattenLayer 2 3 3).feedForward exFlatIn).1.inputs.values f r c =
         exFlatIn.values f r c)) ∧
    rowOut (((newFlattenLayer 2 3 3).feedForward exFlatIn).2) =
      [1, 2, 3, 4, 5, 6, 7, 8, 9, 10, 11, 12, 13, 14, 15, 16, 17, 18] :=
  ⟨flatten_frame_major 2 3 3 exFlatIn 0 0 (by decide) (by decide) (by decide),
    by decide⟩

/-! ## C7 -/

/-- A fold of error-discarding zero-writes over row 0 equals the batch
zeroing of the listed columns. -/
theorem foldSet_zeroAt (t : Tensor) (idxs : List ℕ) :
    idxs.foldl (fun acc c => acc.setIgnore 0 0 c 0) t = zeroAtCols t idxs := by
  induction idxs generalizing t with
  | nil =>
    show t = zeroAtCols t []
    refine Tensor.extEq rfl rfl rfl ?_
    funext f r c
    simp [zeroAtCols]
  | cons i rest ih =>
    show rest.foldl _ (t.setIgnore 0 0 i 0) = zeroAtCols t (i :: rest)
    rw [ih]
    refine Tensor.extEq (setIgnore_frames t 0 0 i 0) (setIgnore_rows t 0 0 i 0)
      (setIgnore_cols t 0 0 i 0) ?_
    funext f r c
    simp only [zeroAtCols, List.mem_cons, setIgnore_inBounds_iff, setIgnore_frames,
      setIgnore_rows, setIgnore_cols, setIgnore_values]
    by_cases hf0 : f = 0
    · by_cases hr0 : r = 0
      · subst hf0 hr0
        by_cases hbnd : t.inBounds 0 0 c
        · by_cases hci : c = i
          · subst hci
            simp [hbnd, Tensor.inBounds] at hbnd ⊢
            simp [hbnd]
          · by_cases hcr : c ∈ rest <;> simp [hbnd, hci, hcr]
        · simp only [Tensor.inBounds] at hbnd
          by_cases hci : c = i
          · subst hci
            simp [hbnd, Tensor.inBounds]
          · simp [hbnd, hci, Tensor.inBounds]
      · simp [hr0]
    · simp [hf0]

/-- The noise loop equals the batch zeroing of its drawn column list. -/
theorem zeroHalfLoop_eq (t : Tensor) (rng : ℕ → ℕ) (k : ℕ) :
    zeroHalfLoop t rng k = zeroAtCols t (picksList t.cols rng k) := by
  rw [← foldSet_zeroAt, picksList, List.foldl_map]
  rfl

/-- When the noise condition is off — inference, or a non-sparse
autoencoder — the forward chain is the plain layer chain and the random
stream is never consumed. -/
theorem aeFF_plain (ae : AutoEncoder) (layers : List DenseLayer) (t : Tensor)
    (train : Bool) (rng : ℕ → ℕ) (k : ℕ)
    (h : (train && ae.isSparse) = false) :
    aeFeedForward ae layers t train rng k =
      (denseChain layers t).map fun x => (x.1, x.2, k) := by
  induction layers generalizing t with
  | nil => rfl
  | cons l rest ih =>
    simp only [aeFeedForward, denseChain, h]
    cases l.feedForward t with
    | none => rfl
    | some p =>
      obtain ⟨l2, u⟩ := p
      simp only [Bool.false_eq_true, if_false, ih u]
      cases denseChain rest u with
      | none => rfl
      | some q => rfl

/-- C7: random column zeroing happens only on the training path and only
when the sparse condition holds; `Encode` and `Decode` run the plain layer
chain untouched by the random stream. When it applies, one pass after a
layer draws `cols/2` column indices from the injected stream (reduced mod
`cols` exactly as `rand.Intn`, so with replacement) and sets exactly those
columns of the layer's output to 0 before the next layer sees it. The
uniform distribution of `rand.Intn` itself is outside this embedding: the
stream is an oracle parameter. -/
theorem autoencoder_noise_only_sparse_train (ae : AutoEncoder) :
    (∀ inputs rng,
      ae.encode inputs rng =
        (denseChain ae.encodingLayers (newValueTensor1D inputs)).map
          fun x => rowOut x.2) ∧
    (∀ coded rng,
      ae.decode coded rng =
        (denseChain ae.decodingLayers (newValueTensor1D coded)).map
          fun x => rowOut x.2) ∧
    (ae.isSparse = false → ∀ layers t rng k,
      aeFeedForward ae layers t true rng k =
        (denseChain layers t).map fun x => (x.1, x.2, k)) ∧
    (ae.isSparse = true → ∀ (l : DenseLayer) rest t rng k,
      aeFeedForward ae (l :: rest) t true rng k =
        (l.feedForward t).bind fun p =>
          (aeFeedForward ae rest (zeroAtCols p.2 (picksList p.2.cols rng k)) true rng
            (k + p.2.cols / 2)).map fun q => (p.1 :: q.1, q.2)) ∧
    (∀ (u : Tensor) (rng : ℕ → ℕ) (k : ℕ),
      (picksList u.cols rng k).length = u.cols / 2 ∧
      (∀ i ∈ picksList u.cols rng k, i < u.cols) ∧
      (0 < u.frames → 0 < u.rows → ∀ c, c < u.cols →
        (zeroAtCols u (picksList u.cols rng k)).values 0 0 c =
          if c ∈ picksList u.cols rng k then 0 else u.values 0 0 c)) := by
  refine ⟨?_, ?_, ?_, ?_, ?_⟩
  · intro inputs rng
    unfold AutoEncoder.encode
    rw [aeFF_plain ae _ _ false rng 0 rfl, Option.map_map]
    rfl
  · intro coded rng
    unfold AutoEncoder.decode
    rw [aeFF_plain ae _ _ false rng 0 rfl, Option.map_map]
    rfl
  · intro hsp layers t rng k
    exact aeFF_plain ae layers t true rng k (by rw [hsp, Bool.and_false])
  · intro hsp l rest t rng k
    simp only [aeFeedForward, hsp, Bool.and_true, if_true, zeroHalfLoop_eq]
    cases l.feedForward t with
    | none => rfl
    | some p =>
      obtain ⟨l2, u⟩ := p
      cases hq : aeFeedForward ae rest (zeroAtCols u (picksList u.cols rng k)) true rng
          (k + u.cols / 2) with
      | none => simp [hq]
      | some q => simp [hq]
  · intro u rng k
    refine ⟨by simp [picksList], ?_, ?_⟩
    · intro i hi
      obtain ⟨j, hj, rfl⟩ := List.mem_map.mp hi
      have hj2 := List.mem_range.mp hj
      exact Nat.mod_lt _ (by omega)
    · intro hfr hrr c hcc
      by_cases hm : c ∈ picksList u.cols rng k
      · simp [zeroAtCols, hm, Tensor.inBounds, hfr, hrr, hcc]
      · simp [zeroAtCols, hm]

/-- Witness: the C7 statement instantiated at the sparse probe autoencoder
(and a noise-step equation with the sparse hypothesis discharged). -/
theorem autoencoder_noise_only_sparse_train_witness :
    (aeEx.encode [1] rngEx =
      (denseChain aeEx.encodingLayers (newValueTensor1D [1])).map
        fun x => rowOut x.2) ∧
    (∀ (l : DenseLayer) rest t rng k,
      aeFeedForward aeEx (l :: rest) t true rng k =
        (l.feedForward t).bind fun p =>
          (aeFeedForward aeEx rest (zeroAtCols p.2 (picksList p.2.cols rng k)) true rng
            (k + p.2.cols / 2)).map fun q => (p.1 :: q.1, q.2)) ∧
    aeEx.isSparse = true :=
  ⟨(autoencoder_noise_only_sparse_train aeEx).1 [1] rngEx,
    (autoencoder_noise_only_sparse_train aeEx).2.2.2.1 (by decide), by decide⟩

/-! ## C10 -/

/-- C10: `NewValueTensor1D`, `NewValueTensor2D` and `NewValueTensor3D`, when
given an empty array, do not fail: each returns a 1×1×1 tensor whose single
element is 0.0. -/
theorem valueTensor_empty_default :
    (newValueTensor1D []).frames = 1 ∧ (newValueTensor1D []).rows = 1 ∧
      (newValueTensor1D []).cols = 1 ∧ (newValueTensor1D []).values 0 0 0 = 0 ∧
    (newValueTensor2D []).frames = 1 ∧ (newValueTensor2D []).rows = 1 ∧
      (newValueTensor2D []).cols = 1 ∧ (newValueTensor2D []).values 0 0 0 = 0 ∧
    (newValueTensor3D []).frames = 1 ∧ (newValueTensor3D []).rows = 1 ∧
      (newValueTensor3D []).cols = 1 ∧ (newValueTensor3D []).values 0 0 0 = 0 := by
  decide

/-! ## C9 -/

/-- C9: transposing twice with freshly allocated results (`dest = nil`)
returns a tensor of the original dimensions that agrees with the original
at every element of every frame. -/
theorem transpose_involutive (a : Tensor) :
    matrixTranspose a none = some (transposeT a) ∧
    matrixTranspose (transposeT a) none = some (transposeT (transposeT a)) ∧
    (transposeT (transposeT a)).frames = a.frames ∧
    (transposeT (transposeT a)).rows = a.rows ∧
    (transposeT (transposeT a)).cols = a.cols ∧
    (∀ f r c, f < a.frames → r < a.rows → c < a.cols →
      (transposeT (transposeT a)).values f r c = a.values f r c) := by
  refine ⟨rfl, rfl, rfl, rfl, rfl, ?_⟩
  intro f r c hf hr hc
  simp [transposeT, transposeInto, Tensor.applyFunction, Tensor.inBounds,
    newEmptyTensor3D, hf, hr, hc]

/-- Witness: the transpose round trip on a concrete 3×2 matrix tensor. -/
theorem transpose_involutive_witness :
    (matrixTranspose exC9 none = some (transposeT exC9) ∧
     matrixTranspose (transposeT exC9) none = some (transposeT (transposeT exC9)) ∧
     (transposeT (transposeT exC9)).frames = exC9.frames ∧
     (transposeT (transposeT exC9)).rows = exC9.rows ∧
     (transposeT (transposeT exC9)).cols = exC9.cols ∧
     (∀ f r c, f < exC9.frames → r < exC9.rows → c < exC9.cols →
       (transposeT (transposeT exC9)).values f r c = exC9.values f r c)) ∧
    (transposeT (transposeT exC9)).values 0 1 0 = 3 :=
  ⟨transpose_involutive exC9, by decide⟩

/-! ## C3 -/

/-- Counterexample to C3 as stated: with resident layer `exL0`, adding
`[exL1, exL2]` where only the second appended layer mismatches does return
the error, but the layer list has grown by the valid prefix `[exL1]` — it
is not "exactly what it was before the call". -/
theorem nnAdd_unmodified_cex :
    chainOK (lastShape [exL0]) [exL1, exL2] = false ∧
    nnAdd [exL0] [exL1, exL2] = ([exL0, exL1], true) ∧
    ([exL0, exL1] ≠ ([exL0] : List LayerI)) := by decide

/-- C3 (amended): when some appended layer fails the shape check, `Add`
returns the shape-mismatch error, and the layer list is the original list
extended by exactly the layers preceding the first mismatching one (so it
is unchanged only when the very first appended layer mismatches). -/
theorem nnAdd_error_appends_prefix (cur ls : List LayerI)
    (h : chainOK (lastShape cur) ls = false) :
    (nnAdd cur ls).2 = true ∧
    (nnAdd cur ls).1 = cur ++ ls.take (firstBad (lastShape cur) ls) := by
  induction ls generalizing cur with
  | nil => simp [chainOK] at h
  | cons l rest ih =>
    match hcur : lastShape cur with
    | none =>
      rw [hcur] at h
      simp only [chainOK] at h
      have h2 := ih (cur ++ [l]) (by rw [lastShape_append]; exact h)
      rw [lastShape_append] at h2
      simp only [nnAdd, hcur, firstBad]
      refine ⟨h2.1, ?_⟩
      rw [h2.2]
      simp
    | some s =>
      rw [hcur] at h
      simp only [nnAdd, hcur, firstBad]
      by_cases hs : s = l.inputShape
      · have hok : chainOK (some l.outputShape) rest = false := by
          simpa [chainOK, hs] using h
        have h2 := ih (cur ++ [l]) (by rw [lastShape_append]; exact hok)
        rw [lastShape_append] at h2
        rw [if_neg (by simp [hs]), if_neg (by simp [hs])]
        refine ⟨h2.1, ?_⟩
        rw [h2.2]
        simp
      · rw [if_pos (by simp [hs]), if_pos (by simp [hs])]
        exact ⟨rfl, by simp⟩

/-- Witness: the amended C3 statement at the concrete probe network. -/
theorem nnAdd_error_appends_prefix_witness :
    (nnAdd [exL0] [exL1, exL2]).2 = true ∧
    (nnAdd [exL0] [exL1, exL2]).1 =
      [exL0] ++ [exL1, exL2].take (firstBad (lastShape [exL0]) [exL1, exL2]) :=
  nnAdd_error_appends_prefix [exL0] [exL1, exL2] (by decide)

/-! ## C4 -/

/-- Counterexample to C4 as stated: on the 1×2 matrix `[1, 2]` the source
derivative yields −3 at position (0,0) — the same-column (diagonal) element
receives both the `(1-current)` and the `-current` weight — while the
claimed no-double-weight formula yields −2. -/
theorem softmax_derivative_cex :
    (softmaxDerivative mC4).values 0 0 = -3 ∧
    (softmaxDerivativeClaimed mC4).values 0 0 = -2 ∧ ((-3 : Val) ≠ -2) := by
  norm_num [softmaxDerivative, softmaxDerivativeClaimed, Matrix.applyFunction, mC4,
    List.range_succ]

/-- C4 (amended): at each in-bounds position, every element of the same
column contributes `m[r][c]*(1-current)` and additionally every element of
the matrix (the same-column ones included, so diagonal terms receive both
weights) contributes `m[r][c]*(-current)`; equivalently the result is
`colSum(c)·(1-current) − total·current`. -/
theorem softmax_derivative_both_weights (m : Matrix) (r c : ℕ)
    (hr : r < m.rows) (hc : c < m.cols) :
    (softmaxDerivative m).values r c =
      colSum m c * (1 - m.values r c) - m.total * m.values r c := by
  unfold softmaxDerivative Matrix.applyFunction colSum Matrix.total
  simp only [hr, hc, and_self, if_true, listRangeSum]
  have hcol : ∀ rr : ℕ,
      (∑ cc ∈ Finset.range m.cols,
        ((if c = cc then m.values rr cc * (1 - m.values r c) else 0) +
          m.values rr cc * -(m.values r c))) =
      m.values rr c * (1 - m.values r c) +
        ∑ cc ∈ Finset.range m.cols, m.values rr cc * -(m.values r c) := by
    intro rr
    rw [Finset.sum_add_distrib, Finset.sum_ite_eq]
    simp [Finset.mem_range.mpr hc]
  simp only [hcol]
  rw [Finset.sum_add_distrib, ← Finset.sum_mul]
  have hdbl : (∑ rr ∈ Finset.range m.rows,
      ∑ cc ∈ Finset.range m.cols, m.values rr cc * -(m.values r c)) =
      (∑ rr ∈ Finset.range m.rows, ∑ cc ∈ Finset.range m.cols, m.values rr cc) *
        -(m.values r c) := by
    rw [Finset.sum_mul]
    exact Finset.sum_congr rfl fun rr _ => by rw [Finset.sum_mul]
  rw [hdbl]
  ring

/-- Witness: the amended C4 formula evaluated on the concrete 1×2 matrix. -/
theorem softmax_derivative_both_weights_witness :
    (softmaxDerivative mC4).values 0 0 =
      colSum mC4 0 * (1 - mC4.values 0 0) - mC4.total * mC4.values 0 0 :=
  softmax_derivative_both_weights mC4 0 0 (by decide) (by decide)

end MLGo
